import Mathlib

/-!
# Verification of the Moloco Ads Reporting CRM aggregation and filtering logic

Shallow embedding of the data transformations of the `CRM_moloco_ads_v1` frontend:

* `processInventoryData` (Inventory page): groups creative rows by an `App`+`App ID`
  key in a `Map` (insertion-ordered), sums the numeric counters, and recomputes the
  derived ratios CTR/IPM/CPI/CPA from the aggregated sums, guarding division by zero.
* `processAppsData` (Apps page): groups creative rows by `App`, summing spend, actions
  and installs, while the `ipm` field is overwritten with each row's own `IPM` value.
* the query-parameter construction of `fetchData` (Campaigns/Exchanges/Inventory pages),
* the clear-reports requests of the sidebar and header components,
* the `MultiCSVUpload` file-queue operations,
* the client-side search filtering of the Campaigns and Exchanges tables.

Numeric CSV fields are modelled as rationals; absent (`undefined`) fields are modelled
with `Option` and the JavaScript `x || default` coercions are made explicit.
-/

namespace MolocoCRM

/-- JavaScript `x || 0` applied to an optional numeric field: a missing or
undefined field counts as `0`. -/
def jsNum (x : Option ℚ) : ℚ := x.getD 0

/-- JavaScript `s || d` applied to an optional string field: `undefined`,
`null`, and the empty string are all falsy and yield the default `d`. -/
def jsStr (x : Option String) (d : String) : String :=
  match x with
  | none => d
  | some s => if s = "" then d else s

/-- One creative record as delivered in `creative_performance.top_performers`
of the `GET /reports` response (fields referenced by the client code). -/
structure Creative where
  App : Option String := none
  AppId : Option String := none
  OS : Option String := none
  Campaign : Option String := none
  Spend : Option ℚ := none
  Impressions : Option ℚ := none
  Clicks : Option ℚ := none
  Install : Option ℚ := none
  Action : Option ℚ := none
  IPM : Option ℚ := none
  deriving DecidableEq, Inhabited

/-- The grouping key of `processInventoryData`:
`` `${creative.App || 'Unknown'}_${creative['App ID'] || 'unknown'}` ``. -/
def appKey (c : Creative) : String :=
  jsStr c.App "Unknown" ++ "_" ++ jsStr c.AppId "unknown"

/-- One aggregated inventory record (the value stored in `appsMap` and, after
the ratio pass, one element of the `inventory` array). -/
structure AppAgg where
  App : String
  AppId : String
  OS : String
  Spend : ℚ
  Impressions : ℚ
  Clicks : ℚ
  Install : ℚ
  Action : ℚ
  CTR : ℚ
  IPM : ℚ
  CPI : ℚ
  CPA : ℚ
  count : ℕ
  deriving DecidableEq, Inhabited

/-- The fresh record `appsMap.set(appKey, {...})` creates when a key is first
seen: display fields from the first creative of the group, counters zero. -/
def initApp (c : Creative) : AppAgg where
  App := jsStr c.App "Unknown App"
  AppId := jsStr c.AppId "unknown"
  OS := jsStr c.OS "Unknown"
  Spend := 0
  Impressions := 0
  Clicks := 0
  Install := 0
  Action := 0
  CTR := 0
  IPM := 0
  CPI := 0
  CPA := 0
  count := 0

/-- The per-row accumulation step of `processInventoryData`:
`app.Spend += creative.Spend || 0; ...; app.count += 1`. -/
def addCreative (a : AppAgg) (c : Creative) : AppAgg :=
  { a with
    Spend := a.Spend + jsNum c.Spend
    Impressions := a.Impressions + jsNum c.Impressions
    Clicks := a.Clicks + jsNum c.Clicks
    Install := a.Install + jsNum c.Install
    Action := a.Action + jsNum c.Action
    count := a.count + 1 }

/-- A JavaScript `Map` keyed by strings, modelled as an insertion-ordered
association list.  `updateAssoc m key c` performs the `if (!appsMap.has(key))
appsMap.set(key, init)` followed by the accumulation into the entry for `key`:
an existing entry is updated in place, a new key is appended at the end. -/
def updateAssoc : List (String × AppAgg) → String → Creative → List (String × AppAgg)
  | [], key, c => [(key, addCreative (initApp c) c)]
  | (k, a) :: rest, key, c =>
      if k = key then (k, addCreative a c) :: rest
      else (k, a) :: updateAssoc rest key c

/-- The grouping loop of `processInventoryData`: fold all creatives into the
insertion-ordered map. -/
def groupCreatives (cs : List Creative) : List (String × AppAgg) :=
  cs.foldl (fun m c => updateAssoc m (appKey c) c) []

/-- The ratio pass of `processInventoryData`: each ratio is recomputed from the
record's aggregated sums, with `0` whenever the guard `denominator > 0` fails. -/
def finalize (a : AppAgg) : AppAgg :=
  { a with
    CTR := if 0 < a.Impressions then a.Clicks / a.Impressions else 0
    IPM := if 0 < a.Impressions then a.Install / a.Impressions * 1000 else 0
    CPI := if 0 < a.Install then a.Spend / a.Install else 0
    CPA := if 0 < a.Action then a.Spend / a.Action else 0 }

/-- `processInventoryData` restricted to its data transformation: group the
creatives, then map the ratio pass over `Array.from(appsMap.values())`. -/
def processInventoryData (cs : List Creative) : List AppAgg :=
  (groupCreatives cs).map (fun p => finalize p.2)

/-- Append a key to an accumulator if it is new (helper describing the order in
which a JavaScript `Map` holds its keys). -/
def addKey (acc : List String) (k : String) : List String :=
  if k ∈ acc then acc else acc ++ [k]

/-- The distinct grouping keys of a creative list, in first-seen order. -/
def keysOf (cs : List Creative) : List String :=
  (cs.map appKey).foldl addKey []

/-- The aggregated record for a single key, described directly: initialise from
the first creative of the group, then accumulate every creative of the group. -/
def aggFor (k : String) (cs : List Creative) : AppAgg :=
  let g := cs.filter (fun c => appKey c = k)
  g.foldl addCreative (initApp g.headI)

theorem mem_addKey {acc : List String} {k x : String} :
    x ∈ addKey acc k ↔ x ∈ acc ∨ x = k := by
  by_cases h : k ∈ acc <;> simp only [addKey, h, ite_true, ite_false,
    List.mem_append, List.mem_singleton]
  exact ⟨Or.inl, fun hx => hx.elim id (fun e => e ▸ h)⟩

theorem mem_foldl_addKey (l : List String) :
    ∀ acc x, x ∈ l.foldl addKey acc ↔ x ∈ acc ∨ x ∈ l := by
  induction l with
  | nil => simp
  | cons k l ih =>
      intro acc x
      rw [List.foldl_cons, ih, mem_addKey, List.mem_cons]
      tauto

theorem nodup_foldl_addKey (l : List String) :
    ∀ acc, acc.Nodup → (l.foldl addKey acc).Nodup := by
  induction l with
  | nil => intro acc h; simpa using h
  | cons k l ih =>
      intro acc h
      refine ih _ ?_
      by_cases hk : k ∈ acc
      · simpa [addKey, hk] using h
      · simp [addKey, hk, List.nodup_append, h]

theorem mem_keysOf {cs : List Creative} {k : String} :
    k ∈ keysOf cs ↔ k ∈ cs.map appKey := by
  simp [keysOf, mem_foldl_addKey]

theorem nodup_keysOf (cs : List Creative) : (keysOf cs).Nodup :=
  nodup_foldl_addKey _ _ List.nodup_nil

theorem keysOf_append_singleton (cs : List Creative) (c : Creative) :
    keysOf (cs ++ [c]) = addKey (keysOf cs) (appKey c) := by
  simp [keysOf, List.map_append, List.foldl_append]

theorem updateAssoc_of_not_mem {ks : List String} (f : String → AppAgg) {key : String}
    (h : key ∉ ks) (c : Creative) :
    updateAssoc (ks.map (fun k => (k, f k))) key c
      = ks.map (fun k => (k, f k)) ++ [(key, addCreative (initApp c) c)] := by
  induction ks with
  | nil => rfl
  | cons k ks ih =>
      simp only [List.mem_cons, not_or] at h
      simp [updateAssoc, Ne.symm h.1, ih h.2]

theorem updateAssoc_of_mem {ks : List String} (f : String → AppAgg) {key : String}
    (hmem : key ∈ ks) (hnd : ks.Nodup) (c : Creative) :
    updateAssoc (ks.map (fun k => (k, f k))) key c
      = ks.map (fun k => (k, if k = key then addCreative (f k) c else f k)) := by
  induction ks with
  | nil => cases hmem
  | cons k ks ih =>
      rcases List.mem_cons.mp hmem with rfl | hmem2
      · have hkey : key ∉ ks := (List.nodup_cons.mp hnd).1
        simp only [List.map_cons, updateAssoc, if_pos rfl, ite_true]
        congr 1
        refine (List.map_congr_left ?_).symm
        intro x hx
        have hne : x ≠ key := fun e => hkey (e ▸ hx)
        simp [hne]
      · have hne : k ≠ key := by
          rintro rfl
          exact (List.nodup_cons.mp hnd).1 hmem2
        simp only [List.map_cons, updateAssoc, if_neg hne,
          ih hmem2 (List.nodup_cons.mp hnd).2, hne, ite_false]

theorem filter_ne_nil_of_mem_keysOf {cs : List Creative} {k : String}
    (h : k ∈ keysOf cs) : cs.filter (fun x => appKey x = k) ≠ [] := by
  rw [mem_keysOf] at h
  obtain ⟨c, hc, rfl⟩ := List.mem_map.mp h
  intro hnil
  have hall := List.filter_eq_nil_iff.mp hnil c hc
  simp at hall

theorem filter_eq_nil_of_not_mem_keysOf {cs : List Creative} {k : String}
    (h : k ∉ keysOf cs) : cs.filter (fun x => appKey x = k) = [] := by
  rw [mem_keysOf] at h
  refine List.filter_eq_nil_iff.mpr ?_
  intro c hc
  simp only [decide_eq_true_eq]
  intro he
  exact h (List.mem_map.mpr ⟨c, hc, he⟩)

theorem aggFor_append_of_ne {k : String} {c : Creative} (cs : List Creative)
    (h : appKey c ≠ k) : aggFor k (cs ++ [c]) = aggFor k cs := by
  have hfil : (cs ++ [c]).filter (fun x => appKey x = k)
      = cs.filter (fun x => appKey x = k) := by
    simp [List.filter_append, h]
  simp only [aggFor, hfil]

theorem aggFor_append_of_eq {cs : List Creative} {c : Creative} {k : String}
    (hk : appKey c = k) (hne : cs.filter (fun x => appKey x = k) ≠ []) :
    aggFor k (cs ++ [c]) = addCreative (aggFor k cs) c := by
  have hfil : (cs ++ [c]).filter (fun x => appKey x = k)
      = cs.filter (fun x => appKey x = k) ++ [c] := by
    simp [List.filter_append, hk]
  obtain ⟨g0, g, hg⟩ : ∃ g0 g, cs.filter (fun x => appKey x = k) = g0 :: g := by
    cases hfl : cs.filter (fun x => appKey x = k) with
    | nil => exact absurd hfl hne
    | cons g0 g => exact ⟨g0, g, rfl⟩
  simp [aggFor, hfil, hg, List.foldl_append]

theorem aggFor_single_of_not_mem {cs : List Creative} {c : Creative}
    (h : appKey c ∉ keysOf cs) :
    aggFor (appKey c) (cs ++ [c]) = addCreative (initApp c) c := by
  have hfil : (cs ++ [c]).filter (fun x => appKey x = appKey c) = [c] := by
    simp [List.filter_append, filter_eq_nil_of_not_mem_keysOf h]
  simp [aggFor, hfil]

/-- The grouping loop of `processInventoryData`, characterised: it produces one
entry per distinct key, in first-seen order, each holding the aggregate of
exactly the creatives bearing that key. -/
theorem groupCreatives_eq (cs : List Creative) :
    groupCreatives cs = (keysOf cs).map (fun k => (k, aggFor k cs)) := by
  induction cs using List.reverseRecOn with
  | nil => rfl
  | append_singleton cs c ih =>
      have hgrp : groupCreatives (cs ++ [c])
          = updateAssoc (groupCreatives cs) (appKey c) c := by
        simp [groupCreatives, List.foldl_append]
      rw [hgrp, ih, keysOf_append_singleton]
      by_cases hk : appKey c ∈ keysOf cs
      · rw [addKey, if_pos hk, updateAssoc_of_mem _ hk (nodup_keysOf cs) c]
        refine List.map_congr_left ?_
        intro x hx
        by_cases hxk : x = appKey c
        · subst hxk
          simp [aggFor_append_of_eq rfl (filter_ne_nil_of_mem_keysOf hk)]
        · have : appKey c ≠ x := fun e => hxk e.symm
          simp [hxk, aggFor_append_of_ne _ this]
      · rw [addKey, if_neg hk, updateAssoc_of_not_mem _ hk c, List.map_append]
        congr 1
        · refine List.map_congr_left ?_
          intro x hx
          have hne : appKey c ≠ x := fun e => hk (e ▸ hx)
          rw [aggFor_append_of_ne _ hne]
        · simp [aggFor_single_of_not_mem hk]

theorem foldl_addCreative (g : List Creative) :
    ∀ a0 : AppAgg, g.foldl addCreative a0 =
      { a0 with
        Spend := a0.Spend + (g.map (fun c => jsNum c.Spend)).sum
        Impressions := a0.Impressions + (g.map (fun c => jsNum c.Impressions)).sum
        Clicks := a0.Clicks + (g.map (fun c => jsNum c.Clicks)).sum
        Install := a0.Install + (g.map (fun c => jsNum c.Install)).sum
        Action := a0.Action + (g.map (fun c => jsNum c.Action)).sum
        count := a0.count + g.length } := by
  induction g with
  | nil => intro a0; simp
  | cons c g ih =>
      intro a0
      rw [List.foldl_cons, ih]
      simp [addCreative, add_assoc, Nat.add_comm]

theorem aggFor_counters (k : String) (cs : List Creative) :
    (aggFor k cs).Spend
      = ((cs.filter (fun c => appKey c = k)).map (fun c => jsNum c.Spend)).sum ∧
    (aggFor k cs).Impressions
      = ((cs.filter (fun c => appKey c = k)).map (fun c => jsNum c.Impressions)).sum ∧
    (aggFor k cs).Clicks
      = ((cs.filter (fun c => appKey c = k)).map (fun c => jsNum c.Clicks)).sum ∧
    (aggFor k cs).Install
      = ((cs.filter (fun c => appKey c = k)).map (fun c => jsNum c.Install)).sum ∧
    (aggFor k cs).Action
      = ((cs.filter (fun c => appKey c = k)).map (fun c => jsNum c.Action)).sum := by
  simp [aggFor, foldl_addCreative, initApp]

theorem finalize_counters (a : AppAgg) :
    (finalize a).Spend = a.Spend ∧ (finalize a).Impressions = a.Impressions ∧
    (finalize a).Clicks = a.Clicks ∧ (finalize a).Install = a.Install ∧
    (finalize a).Action = a.Action := by
  simp [finalize]

theorem mem_groupCreatives {cs : List Creative} {k : String} {a : AppAgg}
    (h : (k, a) ∈ groupCreatives cs) : k ∈ keysOf cs ∧ a = aggFor k cs := by
  rw [groupCreatives_eq] at h
  obtain ⟨x, hx, hxa⟩ := List.mem_map.mp h
  obtain ⟨rfl, rfl⟩ := Prod.mk.injEq .. |>.mp hxa
  exact ⟨hx, rfl⟩

/-- C1: each aggregated inventory record's numeric totals (Spend, Impressions,
Clicks, Install, Action) equal the sum of the corresponding field over exactly
the creatives sharing its `App`+`App ID` key, a missing field counting as 0. -/
theorem c1_aggregated_totals_are_sums (cs : List Creative) (k : String) (a : AppAgg)
    (h : (k, a) ∈ groupCreatives cs) :
    finalize a ∈ processInventoryData cs ∧
    (finalize a).Spend
      = ((cs.filter (fun c => appKey c = k)).map (fun c => jsNum c.Spend)).sum ∧
    (finalize a).Impressions
      = ((cs.filter (fun c => appKey c = k)).map (fun c => jsNum c.Impressions)).sum ∧
    (finalize a).Clicks
      = ((cs.filter (fun c => appKey c = k)).map (fun c => jsNum c.Clicks)).sum ∧
    (finalize a).Install
      = ((cs.filter (fun c => appKey c = k)).map (fun c => jsNum c.Install)).sum ∧
    (finalize a).Action
      = ((cs.filter (fun c => appKey c = k)).map (fun c => jsNum c.Action)).sum := by
  obtain ⟨hk, rfl⟩ := mem_groupCreatives h
  have hmem : finalize (aggFor k cs) ∈ processInventoryData cs := by
    unfold processInventoryData
    exact List.mem_map.mpr ⟨(k, aggFor k cs), h, rfl⟩
  have hc := aggFor_counters k cs
  have hf := finalize_counters (aggFor k cs)
  exact ⟨hmem, hf.1.trans hc.1, hf.2.1.trans hc.2.1, hf.2.2.1.trans hc.2.2.1,
    hf.2.2.2.1.trans hc.2.2.2.1, hf.2.2.2.2.trans hc.2.2.2.2⟩

/-- A concrete creative row used to witness the aggregation theorems. -/
def cW1 : Creative :=
  { App := some "X", Spend := some 10, Impressions := some 100, Clicks := some 5,
    Install := some 2, Action := some 1 }

/-- The aggregate that `groupCreatives [cW1]` stores under key `"X_unknown"`. -/
def aW1 : AppAgg :=
  { App := "X", AppId := "unknown", OS := "Unknown", Spend := 10, Impressions := 100,
    Clicks := 5, Install := 2, Action := 1, CTR := 0, IPM := 0, CPI := 0, CPA := 0,
    count := 1 }

theorem cW1_mem : ("X_unknown", aW1) ∈ groupCreatives [cW1] := by
  simp only [groupCreatives, List.foldl_cons, List.foldl_nil, updateAssoc]
  norm_num [appKey, jsStr, cW1, aW1, addCreative, initApp, jsNum]
  exact ⟨by decide, by decide⟩

/-- Witness for C1 at the concrete one-row input `[cW1]`. -/
theorem c1_aggregated_totals_are_sums_witness :
    finalize aW1 ∈ processInventoryData [cW1] ∧
    (finalize aW1).Spend
      = (([cW1].filter (fun c => appKey c = "X_unknown")).map (fun c => jsNum c.Spend)).sum := by
  have h := c1_aggregated_totals_are_sums [cW1] "X_unknown" aW1 cW1_mem
  exact ⟨h.1, h.2.1⟩

theorem aggFor_nonneg (k : String) (cs : List Creative)
    (hnn : ∀ c ∈ cs, 0 ≤ jsNum c.Impressions ∧ 0 ≤ jsNum c.Install ∧ 0 ≤ jsNum c.Action) :
    0 ≤ (aggFor k cs).Impressions ∧ 0 ≤ (aggFor k cs).Install ∧ 0 ≤ (aggFor k cs).Action := by
  have h := aggFor_counters k cs
  refine ⟨h.2.1 ▸ ?_, h.2.2.2.1 ▸ ?_, h.2.2.2.2 ▸ ?_⟩ <;>
    refine List.sum_nonneg ?_ <;>
    intro x hx <;>
    obtain ⟨c, hc, rfl⟩ := List.mem_map.mp hx <;>
    have hcs := (List.mem_filter.mp hc).1
  · exact (hnn c hcs).1
  · exact (hnn c hcs).2.1
  · exact (hnn c hcs).2.2

/-- C2: for every record aggregated from rows with nonnegative counters, each
derived ratio is 0 when its denominator is 0 (never NaN, infinite, or an
error — the guard takes the `0` branch), and otherwise equals the quotient of
the record's own aggregated sums. -/
theorem c2_ratio_guards (cs : List Creative)
    (hnn : ∀ c ∈ cs, 0 ≤ jsNum c.Impressions ∧ 0 ≤ jsNum c.Install ∧ 0 ≤ jsNum c.Action)
    (r : AppAgg) (hr : r ∈ processInventoryData cs) :
    (r.Impressions = 0 → r.CTR = 0) ∧
    (r.Impressions ≠ 0 → r.CTR = r.Clicks / r.Impressions) ∧
    (r.Impressions = 0 → r.IPM = 0) ∧
    (r.Impressions ≠ 0 → r.IPM = r.Install / r.Impressions * 1000) ∧
    (r.Install = 0 → r.CPI = 0) ∧
    (r.Install ≠ 0 → r.CPI = r.Spend / r.Install) ∧
    (r.Action = 0 → r.CPA = 0) ∧
    (r.Action ≠ 0 → r.CPA = r.Spend / r.Action) := by
  unfold processInventoryData at hr
  obtain ⟨⟨k, a⟩, hmem, rfl⟩ := List.mem_map.mp hr
  obtain ⟨hk, rfl⟩ := mem_groupCreatives hmem
  obtain ⟨hImp, hIns, hAct⟩ := aggFor_nonneg k cs hnn
  refine ⟨?_, ?_, ?_, ?_, ?_, ?_, ?_, ?_⟩ <;> simp only [finalize] <;> intro h
  · rw [if_neg (by rw [h]; exact lt_irrefl 0)]
  · rw [if_pos (lt_of_le_of_ne hImp (Ne.symm h))]
  · rw [if_neg (by rw [h]; exact lt_irrefl 0)]
  · rw [if_pos (lt_of_le_of_ne hImp (Ne.symm h))]
  · rw [if_neg (by rw [h]; exact lt_irrefl 0)]
  · rw [if_pos (lt_of_le_of_ne hIns (Ne.symm h))]
  · rw [if_neg (by rw [h]; exact lt_irrefl 0)]
  · rw [if_pos (lt_of_le_of_ne hAct (Ne.symm h))]

theorem finalize_aW1_mem : finalize aW1 ∈ processInventoryData [cW1] :=
  List.mem_map.mpr ⟨("X_unknown", aW1), cW1_mem, rfl⟩

/-- Witness for C2 at the concrete one-row input `[cW1]`. -/
theorem c2_ratio_guards_witness :
    (finalize aW1).CTR = (finalize aW1).Clicks / (finalize aW1).Impressions := by
  have h := c2_ratio_guards [cW1] (by norm_num [cW1, jsNum]) (finalize aW1) finalize_aW1_mem
  exact h.2.1 (by norm_num [finalize, aW1])

/-- The per-app value stored by `processAppsData` (Apps page).  `campaigns` is
the JavaScript `Set` of campaign names, modelled as an insertion-ordered list
of distinct strings; the platform and performance fields are derived
presentation attributes and are not modelled. -/
structure AppsRec where
  app : String
  app_id : String
  spend : ℚ
  actions : ℚ
  installs : ℚ
  ipm : ℚ
  campaigns : List String
  creatives : ℕ
  deriving DecidableEq, Inhabited

/-- The fresh record `appsMap.set(appKey, {...})` of `processAppsData`. -/
def initAppsRec (c : Creative) : AppsRec where
  app := jsStr c.App "Unknown App"
  app_id := jsStr c.AppId "unknown"
  spend := 0
  actions := 0
  installs := 0
  ipm := 0
  campaigns := []
  creatives := 0

/-- `if (creative.Campaign) app.campaigns.add(creative.Campaign)`. -/
def addCampaignName (s : List String) (x : Option String) : List String :=
  match x with
  | none => s
  | some n => if n = "" then s else if n ∈ s then s else s ++ [n]

/-- The per-row accumulation of `processAppsData`.  Note `app.ipm =
creative.IPM || 0`: the `ipm` field is overwritten with the row's own `IPM`
value on every iteration instead of being recomputed from sums. -/
def addCreativeApps (a : AppsRec) (c : Creative) : AppsRec :=
  { a with
    spend := a.spend + jsNum c.Spend
    actions := a.actions + jsNum c.Action
    installs := a.installs + jsNum c.Install
    ipm := jsNum c.IPM
    campaigns := addCampaignName a.campaigns c.Campaign
    creatives := a.creatives + 1 }

/-- The grouping key of `processAppsData`: `creative.App || 'Unknown App'`. -/
def appsKey (c : Creative) : String := jsStr c.App "Unknown App"

/-- Insertion-ordered map update for `processAppsData`. -/
def updateAppsAssoc : List (String × AppsRec) → String → Creative → List (String × AppsRec)
  | [], key, c => [(key, addCreativeApps (initAppsRec c) c)]
  | (k, a) :: rest, key, c =>
      if k = key then (k, addCreativeApps a c) :: rest
      else (k, a) :: updateAppsAssoc rest key c

/-- The grouping loop of `processAppsData`. -/
def groupApps (cs : List Creative) : List (String × AppsRec) :=
  cs.foldl (fun m c => updateAppsAssoc m (appsKey c) c) []

/-- One element of the final `appsArray`: the campaigns set replaced by its
size; the `ipm` value is carried over unchanged. -/
structure AppsOut where
  app : String
  app_id : String
  spend : ℚ
  actions : ℚ
  installs : ℚ
  ipm : ℚ
  campaigns : ℕ
  creatives : ℕ
  deriving DecidableEq, Inhabited

/-- The `Array.from(appsMap.values()).map(...)` step of `processAppsData`. -/
def toAppsOut (a : AppsRec) : AppsOut where
  app := a.app
  app_id := a.app_id
  spend := a.spend
  actions := a.actions
  installs := a.installs
  ipm := a.ipm
  campaigns := a.campaigns.length
  creatives := a.creatives

/-- `appsArray.sort((a, b) => b.spend - a.spend)`: a stable sort descending by
spend (JavaScript `Array.prototype.sort` is specified to be stable). -/
def sortAppsBySpend (l : List AppsOut) : List AppsOut :=
  l.mergeSort (fun a b => decide (b.spend ≤ a.spend))

/-- `processAppsData` restricted to its data transformation. -/
def processAppsData (cs : List Creative) : List AppsOut :=
  sortAppsBySpend ((groupApps cs).map (fun p => toAppsOut p.2))

/-- First failing row for C3: its own per-row IPM is 3 (3 installs per 1000
impressions). -/
def cA1 : Creative :=
  { App := some "Y", Install := some 3, Impressions := some 1000, IPM := some 3 }

/-- Second failing row for C3: its own per-row IPM is 1/3. -/
def cA2 : Creative :=
  { App := some "Y", Install := some 1, Impressions := some 3000, IPM := some (1/3) }

/-- The record `processAppsData` actually produces for `[cA1, cA2]`. -/
def rA : AppsOut :=
  { app := "Y", app_id := "unknown", spend := 0, actions := 0, installs := 4,
    ipm := 1/3, campaigns := 0, creatives := 2 }

/-- C3: at the failing input `[cA1, cA2]`, `processAppsData` produces a record
whose `ipm` is the `IPM` field of the last input row of the group (1/3), while
the value derived from its own summed Install (4) and Impressions (4000) would
be 1; the claim that ratios are never copied from per-row values fails here. -/
theorem c3_ipm_copied_not_recomputed :
    processAppsData [cA1, cA2] = [rA] ∧
    rA.ipm = jsNum cA2.IPM ∧
    rA.installs / (jsNum cA1.Impressions + jsNum cA2.Impressions) * 1000 = 1 ∧
    rA.ipm ≠ 1 := by
  refine ⟨?_, by norm_num [rA, cA2, jsNum], by norm_num [rA, cA1, cA2, jsNum],
    by norm_num [rA]⟩
  show sortAppsBySpend _ = _
  have hgrp : (groupApps [cA1, cA2]).map (fun p => toAppsOut p.2) = [rA] := by
    simp only [groupApps, List.foldl_cons, List.foldl_nil, updateAppsAssoc, appsKey]
    norm_num [cA1, cA2, jsStr, initAppsRec, addCreativeApps, addCampaignName,
      jsNum, toAppsOut, rA]
    exact fun h => absurd h (by decide)
  rw [hgrp, sortAppsBySpend, List.mergeSort_singleton]

/-- The numeric branch of the table sort comparator, `(a, b) => aVal - bVal`
for ascending and `(a, b) => bVal - aVal` for descending order on a numeric
column, as the stable sort JavaScript specifies. -/
def sortByNum (f : AppAgg → ℚ) (asc : Bool) (l : List AppAgg) : List AppAgg :=
  l.mergeSort (fun a b => if asc then decide (f a ≤ f b) else decide (f b ≤ f a))

/-- C4: the aggregated inventory list has one record per distinct key in
first-seen order (a new key is appended at the end, an existing key keeps its
position), and the subsequent table sorts are stable: records with equal sort
values keep their insertion order. -/
theorem c4_first_seen_order_and_stable_sort (cs : List Creative) :
    processInventoryData cs = (keysOf cs).map (fun k => finalize (aggFor k cs)) ∧
    (keysOf cs).Nodup ∧
    (∀ k, k ∈ keysOf cs ↔ k ∈ cs.map appKey) ∧
    (∀ c, keysOf (cs ++ [c])
        = if appKey c ∈ keysOf cs then keysOf cs else keysOf cs ++ [appKey c]) ∧
    (∀ (f : AppAgg → ℚ) (asc : Bool) (a b : AppAgg) (l : List AppAgg),
      List.Sublist [a, b] l → f a = f b → List.Sublist [a, b] (sortByNum f asc l)) ∧
    (∀ (a b : AppsOut) (l : List AppsOut),
      List.Sublist [a, b] l → a.spend = b.spend → List.Sublist [a, b] (sortAppsBySpend l)) := by
  refine ⟨?_, nodup_keysOf cs, fun k => mem_keysOf, ?_, ?_, ?_⟩
  · rw [processInventoryData, groupCreatives_eq, List.map_map]
    rfl
  · intro c
    rw [keysOf_append_singleton, addKey]
  · intro f asc a b l hsub heq
    refine List.pair_sublist_mergeSort ?_ ?_ ?_ hsub
    · intro x y z hxy hyz
      cases asc <;> simp only [Bool.false_eq_true, if_true, if_false,
        ite_true, ite_false, decide_eq_true_eq] at hxy hyz ⊢
      · exact le_trans hyz hxy
      · exact le_trans hxy hyz
    · intro x y
      cases asc <;> simp only [Bool.false_eq_true, if_true, if_false,
        ite_true, ite_false] <;> simpa using le_total _ _
    · cases asc <;> simp [heq.le, heq.ge]
  · intro a b l hsub heq
    refine List.pair_sublist_mergeSort ?_ ?_ ?_ hsub
    · intro x y z hxy hyz
      simp only [decide_eq_true_eq] at hxy hyz ⊢
      exact le_trans hyz hxy
    · intro x y
      simpa using le_total _ _
    · simp [heq.ge]

/-- First of two equal-spend apps witnessing the stable-sort part of C4. -/
def oW1 : AppsOut :=
  { app := "a1", app_id := "i1", spend := 7, actions := 0, installs := 0,
    ipm := 0, campaigns := 0, creatives := 1 }

/-- Second of two equal-spend apps witnessing the stable-sort part of C4. -/
def oW2 : AppsOut :=
  { app := "a2", app_id := "i2", spend := 7, actions := 0, installs := 0,
    ipm := 0, campaigns := 0, creatives := 1 }

/-- Witness for C4: two concrete equal-spend records keep their insertion
order through the stable descending-spend sort. -/
theorem c4_first_seen_order_and_stable_sort_witness :
    List.Sublist [oW1, oW2] (sortAppsBySpend [oW1, oW2]) := by
  have h := (c4_first_seen_order_and_stable_sort [cW1]).2.2.2.2.2
  exact h oW1 oW2 [oW1, oW2] (List.Sublist.refl _) rfl

/-- The query parameters `fetchData` builds for the `GET /reports` request: a
`_t` cache-buster always; `start_date` and `end_date` when both applied bounds
are set; `start_date` alone when only the start is set; nothing for the dates
otherwise; and `country` exactly when the applied country is truthy. -/
def buildReportsParams (t : String) (s e c : Option String) : List (String × String) :=
  [("_t", t)]
    ++ (match s, e with
        | some sd, some ed => [("start_date", sd), ("end_date", ed)]
        | some sd, none => [("start_date", sd)]
        | none, _ => [])
    ++ (match c with
        | some cc => if cc = "" then [] else [("country", cc)]
        | none => [])

/-- A raw report row as the backend holds it, with the date as a comparable
day index. -/
structure RawRow where
  date : ℕ
  country : String
  deriving DecidableEq

/-- Modelled from the spec: the backend query/filter layer of `GET /reports`
is not under `src/`; per the spec it restricts the raw row set to the
inclusive `start_date`/`end_date` range and to the requested country, and an
absent filter passes all rows through. -/
def filterRows (s e : Option ℕ) (c : Option String) (rows : List RawRow) : List RawRow :=
  rows.filter (fun r =>
    (match s with | some d => decide (d ≤ r.date) | none => true)
      && (match e with | some d => decide (r.date ≤ d) | none => true)
      && (match c with | some cc => r.country == cc | none => true))

/-- C5: with no applied filters the request carries no `start_date`,
`end_date` or `country` parameter and the (spec-modelled) backend passes every
row through; with both bounds set, both inclusive bounds are sent; with only a
start date, exactly `start_date` is sent, and the backend then keeps precisely
the rows from that date forward. -/
theorem c5_absent_filters_pass_all (t : String) :
    buildReportsParams t none none none = [("_t", t)] ∧
    (∀ sd ed, buildReportsParams t (some sd) (some ed) none
        = [("_t", t), ("start_date", sd), ("end_date", ed)]) ∧
    (∀ sd, buildReportsParams t (some sd) none none
        = [("_t", t), ("start_date", sd)]) ∧
    (∀ rows, filterRows none none none rows = rows) ∧
    (∀ d rows r, r ∈ filterRows (some d) none none rows ↔ r ∈ rows ∧ d ≤ r.date) := by
  refine ⟨rfl, fun sd ed => rfl, fun sd => rfl, ?_, ?_⟩
  · intro rows
    simp [filterRows]
  · intro d rows r
    simp [filterRows, List.mem_filter]

/-- The overview block of the `GET /reports` response; every field may be
absent. -/
structure OverviewTotals where
  total_spend : Option ℚ := none
  total_actions : Option ℚ := none
  total_impressions : Option ℚ := none
  total_installs : Option ℚ := none
  deriving DecidableEq, Inhabited

/-- The `creative_performance` block of the `GET /reports` response. -/
structure CreativePerf where
  top_performers : Option (List Creative) := none
  deriving DecidableEq, Inhabited

/-- The `GET /reports` response shape read by the Overview and Inventory
pages. -/
structure ReportsResponse where
  overview : Option OverviewTotals := none
  creative_performance : Option CreativePerf := none
  deriving DecidableEq, Inhabited

/-- `data?.overview?.total_spend || 0` on the Overview page. -/
def totalSpendShown (d : Option ReportsResponse) : ℚ :=
  jsNum ((d.bind (fun r => r.overview)).bind (fun o => o.total_spend))

/-- `data?.overview?.total_actions || 0` on the Overview page. -/
def totalActionsShown (d : Option ReportsResponse) : ℚ :=
  jsNum ((d.bind (fun r => r.overview)).bind (fun o => o.total_actions))

/-- `data?.overview?.total_impressions || 0` on the Overview page. -/
def totalImpressionsShown (d : Option ReportsResponse) : ℚ :=
  jsNum ((d.bind (fun r => r.overview)).bind (fun o => o.total_impressions))

/-- `data?.overview?.total_installs || 0` on the Overview page. -/
def totalInstallsShown (d : Option ReportsResponse) : ℚ :=
  jsNum ((d.bind (fun r => r.overview)).bind (fun o => o.total_installs))

/-- The creative rows `processInventoryData` iterates over; absent blocks
contribute no rows. -/
def topPerformersOf (r : ReportsResponse) : List Creative :=
  match r.creative_performance with
  | none => []
  | some cp => cp.top_performers.getD []

/-- `processInventoryData` applied to a whole `GET /reports` response. -/
def processInventoryResult (r : ReportsResponse) : List AppAgg :=
  processInventoryData (topPerformersOf r)

/-- C6: a row collection that is empty or absent aggregates to the empty list
rather than an error, and every displayed overview total defaults to 0 when
the underlying data is missing at any level. -/
theorem c6_no_rows_empty_but_valid :
    processInventoryData [] = [] ∧
    processInventoryResult {} = [] ∧
    processInventoryResult { creative_performance := some {} } = [] ∧
    processInventoryResult
      { creative_performance := some { top_performers := some [] } } = [] ∧
    totalSpendShown none = 0 ∧ totalActionsShown none = 0 ∧
    totalImpressionsShown none = 0 ∧ totalInstallsShown none = 0 ∧
    (∀ cp, totalSpendShown (some { overview := none, creative_performance := cp }) = 0 ∧
      totalActionsShown (some { overview := none, creative_performance := cp }) = 0 ∧
      totalImpressionsShown (some { overview := none, creative_performance := cp }) = 0 ∧
      totalInstallsShown (some { overview := none, creative_performance := cp }) = 0) :=
  ⟨rfl, rfl, rfl, rfl, rfl, rfl, rfl, rfl, fun _ => ⟨rfl, rfl, rfl, rfl⟩⟩

/-- One raw campaign row of the spec's aggregation example. -/
structure CampaignRow where
  Campaign : String
  Spend : ℚ
  Install : ℚ
  deriving DecidableEq

/-- One aggregated campaign record of the spec-modelled campaign aggregator. -/
structure CampaignAgg where
  Campaign : String
  Spend : ℚ
  Install : ℚ
  CPI : ℚ
  deriving DecidableEq

/-- Fold one campaign row into the insertion-ordered aggregates: an existing
campaign is updated in place, a new one is appended at the end. -/
def addCampaignRow : List CampaignAgg → CampaignRow → List CampaignAgg
  | [], r => [{ Campaign := r.Campaign, Spend := r.Spend, Install := r.Install, CPI := 0 }]
  | a :: rest, r =>
      if a.Campaign = r.Campaign then
        { a with Spend := a.Spend + r.Spend, Install := a.Install + r.Install } :: rest
      else a :: addCampaignRow rest r

/-- Modelled from the spec: the server-side campaign aggregator behind
`GET /reports` (the `top_campaigns` list) is not under `src/`; per the spec it
groups rows by Campaign name with first-seen insertion order, sums the
counters, and recomputes CPI = Spend/Install from the aggregated sums,
yielding 0 when Install is 0. -/
def aggregateCampaigns (rows : List CampaignRow) : List CampaignAgg :=
  (rows.foldl addCampaignRow []).map
    (fun a => { a with CPI := if 0 < a.Install then a.Spend / a.Install else 0 })

/-- C7: the three example campaign rows aggregate to exactly two records in
first-seen order: A with Spend 30, Install 4, CPI 7.5, then B with Spend 5,
Install 0, CPI 0. -/
theorem c7_example_aggregation :
    aggregateCampaigns
        [{ Campaign := "A", Spend := 10, Install := 1 },
         { Campaign := "A", Spend := 20, Install := 3 },
         { Campaign := "B", Spend := 5, Install := 0 }]
      = [{ Campaign := "A", Spend := 30, Install := 4, CPI := 15/2 },
         { Campaign := "B", Spend := 5, Install := 0, CPI := 0 }] := by
  simp +decide only [aggregateCampaigns, List.foldl_cons, List.foldl_nil, addCampaignRow]
  norm_num

/-- An HTTP request as issued by the client components. -/
structure HttpRequest where
  method : String
  path : String
  deriving DecidableEq

/-- `AppSidebar.clearReports`:
`fetch(base + '/clear-reports', { method: 'DELETE', ... })`. -/
def sidebarClearRequest : HttpRequest where
  method := "DELETE"
  path := "/clear-reports"

/-- The Header component's `clearReports`:
`fetch(apiUrl + '/clear-reports', { method: 'POST' })`. -/
def headerClearRequest : HttpRequest where
  method := "POST"
  path := "/clear-reports"

/-- The Header component's displayed state. -/
structure HeaderState where
  reportsCount : ℕ
  deriving DecidableEq

/-- On `response.ok` the Header sets the displayed report count to 0 (and the
page reloads, refetching from the cleared store). -/
def headerAfterClearSuccess (s : HeaderState) : HeaderState :=
  { s with reportsCount := 0 }

/-- C8 counterexample: the Header component issues the clear-reports operation
on `/clear-reports` with method POST, not DELETE, so the claim fails for that
component. -/
theorem c8_counterexample_header_uses_post :
    headerClearRequest.path = "/clear-reports" ∧ headerClearRequest.method ≠ "DELETE" :=
  ⟨rfl, by decide⟩

/-- C8 (amended): the AppSidebar issues clear-reports as HTTP DELETE on
`/clear-reports`, while the Header component issues POST on the same path; on
success the client resets the displayed report count to 0 and reloads, and the
reloaded views read an empty aggregate (an empty row collection yields an
empty inventory list and zero displayed totals). -/
theorem c8_clear_reports_amended :
    sidebarClearRequest = { method := "DELETE", path := "/clear-reports" } ∧
    headerClearRequest = { method := "POST", path := "/clear-reports" } ∧
    (∀ s, (headerAfterClearSuccess s).reportsCount = 0) ∧
    processInventoryData [] = [] ∧
    totalSpendShown none = 0 :=
  ⟨rfl, rfl, fun _ => rfl, rfl, rfl⟩

/-- One queued upload file, with the fields the queue operations touch. -/
structure UploadFile where
  id : String
  status : String
  progress : ℚ
  deriving DecidableEq

/-- JavaScript `arr.slice(0, e)` with a possibly negative end index (a
negative `e` counts from the end of the array). -/
def jsSliceTo {α : Type} (l : List α) (e : Int) : List α :=
  if e < 0 then l.take (l.length - e.natAbs) else l.take e.toNat

/-- `handleFileSelect`: append the selected files, admitting at most
`maxFiles - files.length` of them
(`Array.from(selectedFiles).slice(0, maxFiles - files.length)`). -/
def handleFileSelect (maxFiles : ℕ) (files sel : List UploadFile) : List UploadFile :=
  files ++ jsSliceTo sel ((maxFiles : Int) - files.length)

/-- `removeFile`: drop the file with the given id. -/
def removeFile (files : List UploadFile) (i : String) : List UploadFile :=
  files.filter (fun f => f.id ≠ i)

/-- `retryFile`: reset the matching file's status and progress in place. -/
def retryFile (files : List UploadFile) (i : String) : List UploadFile :=
  files.map (fun f =>
    if f.id = i then { f with status := "pending", progress := 0 } else f)

/-- The queue operations of `MultiCSVUpload`; a drop goes through
`handleFileSelect` exactly like a file-select, and `clearAll` empties the
list. -/
inductive UploadOp where
  | select (sel : List UploadFile)
  | dropFiles (sel : List UploadFile)
  | remove (i : String)
  | clear
  | retry (i : String)

/-- Apply one queue operation to the current file list. -/
def applyUploadOp (maxFiles : ℕ) (files : List UploadFile) : UploadOp → List UploadFile
  | .select sel => handleFileSelect maxFiles files sel
  | .dropFiles sel => handleFileSelect maxFiles files sel
  | .remove i => removeFile files i
  | .clear => []
  | .retry i => retryFile files i

/-- Run a sequence of queue operations from the initial empty queue. -/
def runUploadOps (maxFiles : ℕ) (ops : List UploadOp) : List UploadFile :=
  ops.foldl (applyUploadOp maxFiles) []

theorem handleFileSelect_length {maxFiles : ℕ} {files : List UploadFile}
    (h : files.length ≤ maxFiles) (sel : List UploadFile) :
    (handleFileSelect maxFiles files sel).length ≤ maxFiles := by
  simp only [handleFileSelect, jsSliceTo]
  rw [if_neg (by omega : ¬ ((maxFiles : Int) - files.length < 0))]
  simp only [List.length_append, List.length_take]
  omega

theorem applyUploadOp_length {maxFiles : ℕ} {files : List UploadFile}
    (h : files.length ≤ maxFiles) (op : UploadOp) :
    (applyUploadOp maxFiles files op).length ≤ maxFiles := by
  cases op with
  | select sel => exact handleFileSelect_length h sel
  | dropFiles sel => exact handleFileSelect_length h sel
  | remove i => exact le_trans (List.length_filter_le _ _) h
  | clear => simp [applyUploadOp]
  | retry i => simpa [applyUploadOp, retryFile] using h

/-- C9: starting from the empty queue, every sequence of select, drop,
remove, clear and retry operations leaves at most `maxFiles` files queued. -/
theorem c9_queue_never_exceeds_max (maxFiles : ℕ) (ops : List UploadOp) :
    (runUploadOps maxFiles ops).length ≤ maxFiles := by
  suffices h : ∀ files : List UploadFile, files.length ≤ maxFiles →
      (ops.foldl (applyUploadOp maxFiles) files).length ≤ maxFiles by
    exact h [] (by simp)
  induction ops with
  | nil => intro files h; simpa using h
  | cons op ops ih =>
      intro files h
      exact ih _ (applyUploadOp_length h op)

/-- One row of the campaigns table (`top_campaigns` as rendered). -/
structure CampaignOut where
  Campaign : String
  Spend : ℚ := 0
  Impressions : ℚ := 0
  Clicks : ℚ := 0
  Install : ℚ := 0
  Actions : ℚ := 0
  Purchase : ℚ := 0
  CTR : ℚ := 0
  CPI : ℚ := 0
  CPA : ℚ := 0
  ROAS : ℚ := 0
  deriving DecidableEq

/-- One row of the exchanges table (`exchange_performance` as rendered). -/
structure ExchangeOut where
  Exchange : String
  Spend : ℚ := 0
  Impressions : ℚ := 0
  Clicks : ℚ := 0
  Install : ℚ := 0
  Action : ℚ := 0
  CTR : ℚ := 0
  IPM : ℚ := 0
  CPI : ℚ := 0
  CPA : ℚ := 0
  ROAS : ℚ := 0
  deriving DecidableEq

/-- `s.toLowerCase()` (ASCII model of the JavaScript lowering). -/
def lowerStr (s : String) : String := ⟨s.data.map Char.toLower⟩

/-- Does `needle` start `hay`? -/
def leadMatch : List Char → List Char → Bool
  | [], _ => true
  | _ :: _, [] => false
  | a :: as, b :: bs => a == b && leadMatch as bs

/-- Does `hay` contain `needle` as a contiguous run? -/
def hasSub (needle : List Char) : List Char → Bool
  | [] => leadMatch needle []
  | b :: bs => leadMatch needle (b :: bs) || hasSub needle bs

/-- JavaScript `hay.includes(needle)`. -/
def jsIncludes (hay needle : String) : Bool := hasSub needle.data hay.data

/-- The filter step of `filteredAndSortedCampaigns`:
`campaign.Campaign.toLowerCase().includes(searchQuery.toLowerCase())`. -/
def filterCampaigns (q : String) (l : List CampaignOut) : List CampaignOut :=
  l.filter (fun c => jsIncludes (lowerStr c.Campaign) (lowerStr q))

/-- The filter step of `filteredAndSortedExchanges`. -/
def filterExchanges (q : String) (l : List ExchangeOut) : List ExchangeOut :=
  l.filter (fun x => jsIncludes (lowerStr x.Exchange) (lowerStr q))

theorem leadMatch_nil (l : List Char) : leadMatch [] l = true := by
  cases l <;> rfl

theorem hasSub_nil (l : List Char) : hasSub [] l = true := by
  cases l with
  | nil => rfl
  | cons b bs => simp [hasSub, leadMatch_nil]

theorem jsIncludes_empty (h : String) : jsIncludes h "" = true :=
  hasSub_nil h.data

/-- C10: the empty search query keeps every record, a record is kept exactly
when its lowered name contains the lowered query, and two queries equal up to
lowering produce identical filtered lists — for both the campaigns table and
the exchanges table. -/
theorem c10_search_filter (q q2 : String) (hq : lowerStr q = lowerStr q2) :
    (∀ l, filterCampaigns "" l = l) ∧
    (∀ l, filterExchanges "" l = l) ∧
    (∀ c l, c ∈ filterCampaigns q l ↔
      c ∈ l ∧ jsIncludes (lowerStr c.Campaign) (lowerStr q) = true) ∧
    (∀ l, filterCampaigns q l = filterCampaigns q2 l) ∧
    (∀ l, filterExchanges q l = filterExchanges q2 l) := by
  refine ⟨?_, ?_, ?_, ?_, ?_⟩
  · intro l
    refine List.filter_eq_self.mpr fun a ha => ?_
    exact jsIncludes_empty _
  · intro l
    refine List.filter_eq_self.mpr fun a ha => ?_
    exact jsIncludes_empty _
  · intro c l
    simp [filterCampaigns, List.mem_filter]
  · intro l
    simp only [filterCampaigns, hq]
  · intro l
    simp only [filterExchanges, hq]

/-- Witness for C10 at a concrete query pair differing only in case. -/
theorem c10_search_filter_witness :
    lowerStr "AbC" = lowerStr "abc" ∧
    filterCampaigns "AbC" [{ Campaign := "xAbCy" }]
      = filterCampaigns "abc" [{ Campaign := "xAbCy" }] := by
  have h := c10_search_filter "AbC" "abc" (by decide)
  exact ⟨by decide, h.2.2.2.1 _⟩

end MolocoCRM
